import Mathlib

/-!
Verification of the manifest & source transformation engine of
`substrate-manager` against its natural-language specification.

The development shallowly embeds the relevant Rust functions:
source text is modelled as `List Char` (the sources under test are ASCII,
so byte indices and character indices coincide), TOML documents as ordered
association lists, and filesystem/process effects as explicit function
parameters.  Each embedded definition is translated from the Rust source
file named in its doc comment.
-/

namespace SubstrateManager

/-! ## Basic text utilities (List Char) -/

/-- The opening brace character, written via its code point. -/
def lbrace : Char := Char.ofNat 123

/-- The closing brace character, written via its code point. -/
def rbrace : Char := Char.ofNat 125

/-- Whitespace as matched by the regex crate's `\s` class: `[ \t\n\v\f\r]`. -/
def isWsChar (c : Char) : Bool :=
  c = ' ' || c = '\t' || c = '\n' || c = '\r' || c = Char.ofNat 11 || c = Char.ofNat 12

/-- `needle` occurs as a contiguous substring of `hay`
(Rust `str::contains`). -/
def isSubstr (needle : List Char) : List Char → Bool
  | [] => needle.isEmpty
  | c :: t => needle.isPrefixOf (c :: t) || isSubstr needle t

/-- Number of (overlapping) occurrence positions of `needle` in `hay`;
used to state "`hay` contains exactly one occurrence of `needle`". -/
def countSubstr (needle hay : List Char) : Nat :=
  (List.range (hay.length + 1)).countP (fun i => needle.isPrefixOf (hay.drop i))

/-- Worker for `replaceAll`, with `fuel` bounding the scan
(called with the haystack's length, which suffices). -/
def replaceAllGo (needle repl : List Char) : Nat → List Char → List Char
  | 0, rest => rest
  | _ + 1, [] => []
  | fuel + 1, c :: t =>
    if needle.isPrefixOf (c :: t) then
      repl ++ replaceAllGo needle repl fuel ((c :: t).drop needle.length)
    else
      c :: replaceAllGo needle repl fuel t

/-- Rust `str::replace`: replace every occurrence of `needle` in `hay` by
`repl`, scanning left to right.  An empty pattern matches at every
character boundary, exactly as in Rust. -/
def replaceAll (hay needle repl : List Char) : List Char :=
  if needle.isEmpty then
    repl ++ hay.foldr (fun c acc => c :: (repl ++ acc)) []
  else
    replaceAllGo needle repl hay.length hay

/-- Rust `str::replacen(needle, repl, 1)`: replace only the first
occurrence of `needle`. -/
def replaceFirst (hay needle repl : List Char) : List Char :=
  if needle.isEmpty then repl ++ hay
  else
    match hay with
    | [] => []
    | c :: t =>
      if needle.isPrefixOf (c :: t) then repl ++ (c :: t).drop needle.length
      else c :: replaceFirst t needle repl

/-- Rust `String::insert_str(i, ins)` (at a valid boundary `i`). -/
def insertChars (l : List Char) (i : Nat) (ins : List Char) : List Char :=
  l.take i ++ ins ++ l.drop i

/-- The slice `l[a..b]`. -/
def sliceChars (l : List Char) (a b : Nat) : List Char :=
  (l.take b).drop a

/-- Split on `'\n'` keeping a (possibly empty) final segment. -/
def splitOnNl : List Char → List (List Char)
  | [] => [[]]
  | c :: t =>
    if c = '\n' then [] :: splitOnNl t
    else
      match splitOnNl t with
      | h :: r => (c :: h) :: r
      | [] => [[c]]

/-- Drop one trailing `'\r'` (Rust `lines()` strips it). -/
def stripCr (l : List Char) : List Char :=
  match l.getLast? with
  | some c => if c = '\r' then l.dropLast else l
  | none => l

/-- Rust `str::lines()`: split on `'\n'`, dropping a final empty segment
and stripping a trailing `'\r'` from each line. -/
def rustLines (l : List Char) : List (List Char) :=
  let ps := splitOnNl l
  (if ps.getLast? = some [] then ps.dropLast else ps).map stripCr

/-- Rust `str::lines().count()`. -/
def linesCount (l : List Char) : Nat :=
  (rustLines l).length

/-! ## Identifier case conversions (`src/util/mod.rs`) -/

/-- ASCII `A`-`Z`. -/
def isAsciiUpper (c : Char) : Bool := 'A' ≤ c && c ≤ 'Z'

/-- ASCII `a`-`z`. -/
def isAsciiLower (c : Char) : Bool := 'a' ≤ c && c ≤ 'z'

/-- Rust `char::is_ascii_alphanumeric`. -/
def isAsciiAlnum (c : Char) : Bool :=
  ('0' ≤ c && c ≤ '9') || isAsciiUpper c || isAsciiLower c

/-- Rust `char::to_ascii_lowercase`. -/
def asciiLower (c : Char) : Char :=
  if isAsciiUpper c then Char.ofNat (c.toNat + 32) else c

/-- Rust `char::to_uppercase` restricted to ASCII (the repository only
applies it to ASCII identifiers). -/
def asciiUpper (c : Char) : Char :=
  if isAsciiLower c then Char.ofNat (c.toNat - 32) else c

/-- One loop iteration of `to_snake_case` (`src/util/mod.rs:54-78`);
state is `(buffer, prev_was_delimiter)`. -/
def snakeStep (st : List Char × Bool) (c : Char) : List Char × Bool :=
  let buf := st.1
  let prevWasDelimiter := st.2
  if isAsciiAlnum c then
    if isAsciiUpper c then
      ((if !prevWasDelimiter && !buf.isEmpty then buf ++ ['_'] else buf) ++ [asciiLower c],
        false)
    else (buf ++ [c], false)
  else if c = ' ' || c = '-' then
    ((if !prevWasDelimiter && !buf.isEmpty then buf ++ ['_'] else buf), true)
  else (buf, prevWasDelimiter)

/-- `to_snake_case` (`src/util/mod.rs:54-78`): `prev_was_delimiter`
starts `true`; characters that are neither ASCII-alphanumeric nor
space/hyphen (in particular `'_'`) are dropped without touching the
state. -/
def toSnakeCase (s : List Char) : List Char :=
  (s.foldl snakeStep ([], true)).1

/-- One loop iteration of `to_pascal_case` (`src/util/mod.rs:34-51`);
state is `(buffer, uppercase_next, is_first_index)`. -/
def pascalStep (st : List Char × Bool × Bool) (c : Char) : List Char × Bool × Bool :=
  let buf := st.1
  let upperNext := st.2.1
  let first := st.2.2
  if first then (buf ++ [asciiUpper c], upperNext, false)
  else if c = '_' || c = '-' then (buf, true, false)
  else if upperNext then (buf ++ [asciiUpper c], false, false)
  else (buf ++ [c], upperNext, false)

/-- `to_pascal_case` (`src/util/mod.rs:34-51`). -/
def toPascalCase (s : List Char) : List Char :=
  (s.foldl pascalStep ([], false, true)).1

/-! ## The two regular expressions of `add_pallet_to_runtime`
(`src/ops/substrate_add.rs:69-83`), embedded as deterministic scanners.

`pallet_trait_existing` is (after `(?x)` whitespace removal)
`(?m)^impl\s+MOD::Config\s+for\s+Runtime\s+\{[^}]+\}`, and
`construct_runtime` is
`construct_runtime!\(\s*(pub\s+)?(enum|struct)\s+Runtime\s*(where[^{]+)?\{([\s\S]+)\}\s*\);`.
Both patterns are deterministic under the regex crate's leftmost-first
semantics: every greedy repetition is followed by a literal that its
character class cannot match, so maximal munch plus committed optional
groups reproduces the backtracking engine's answer exactly. -/

/-- Consume a literal: `some` of the remainder iff `lit` is a prefix. -/
def dropLit (lit s : List Char) : Option (List Char) :=
  if lit.isPrefixOf s then some (s.drop lit.length) else none

/-- Consume `\s+` (at least one whitespace, maximal munch). -/
def dropWs1 : List Char → Option (List Char)
  | [] => none
  | c :: t => if isWsChar c then some (t.dropWhile isWsChar) else none

/-- Try `pallet_trait_existing` at the start of `s`; returns the matched
length.  After the opening brace, `[^}]+\}` consumes a nonempty run of
non-`}` characters up to the first closing brace. -/
def tryTraitAt (modName : List Char) (s : List Char) : Option Nat :=
  match dropLit "impl".data s with
  | none => none
  | some r1 =>
    match dropWs1 r1 with
    | none => none
    | some r2 =>
      match dropLit (modName ++ "::Config".data) r2 with
      | none => none
      | some r3 =>
        match dropWs1 r3 with
        | none => none
        | some r4 =>
          match dropLit "for".data r4 with
          | none => none
          | some r5 =>
            match dropWs1 r5 with
            | none => none
            | some r6 =>
              match dropLit "Runtime".data r6 with
              | none => none
              | some r7 =>
                match dropWs1 r7 with
                | none => none
                | some r8 =>
                  match dropLit [lbrace] r8 with
                  | none => none
                  | some r9 =>
                    match r9 with
                    | [] => none
                    | c :: _ =>
                      if c = rbrace then none
                      else
                        match r9.dropWhile (fun x => x ≠ rbrace) with
                        | b :: rest =>
                          if b = rbrace then some (s.length - rest.length) else none
                        | [] => none

/-- Scan for the leftmost `pallet_trait_existing` match.  `atLineStart`
tracks the `(?m)^` anchor (start of haystack or just after `'\n'`).
Returns the `(start, end)` span. -/
def findTraitFrom (modName : List Char) : List Char → Nat → Bool → Option (Nat × Nat)
  | [], _, _ => none
  | c :: t, i, atLineStart =>
    if atLineStart then
      match tryTraitAt modName (c :: t) with
      | some len => some (i, i + len)
      | none => findTraitFrom modName t (i + 1) (c = '\n')
    else findTraitFrom modName t (i + 1) (c = '\n')

/-- Leftmost match of `pallet_trait_existing` in `s`. -/
def findTrait (modName s : List Char) : Option (Nat × Nat) :=
  findTraitFrom modName s 0 true

/-- Does `l` begin with `\}\s*\);` (a closing brace, optional whitespace,
then `");"`)? -/
def closesAt (l : List Char) : Bool :=
  match l with
  | c :: t => c = rbrace && ");".data.isPrefixOf (t.dropWhile isWsChar)
  | [] => false

/-- Position of the last candidate closing brace for the greedy
`([\s\S]+)\}\s*\);` tail: the greatest `k ≥ 1` such that the suffix of
`l` at `k` begins with `\}\s*\);`. -/
def findLastClose (l : List Char) : Option Nat :=
  (List.range l.length).foldl
    (fun acc k => if 1 ≤ k && closesAt (l.drop k) then some k else acc) none

/-- Try the `construct_runtime` regex at the start of `s`; returns the
offsets `(palletsStart, palletsEnd)` of the `pallets` capture group
relative to `s`. -/
def tryConstructAt (s : List Char) : Option (Nat × Nat) :=
  match dropLit "construct_runtime!(".data s with
  | none => none
  | some r1 =>
    let r2 := r1.dropWhile isWsChar
    let r3 :=
      match dropLit "pub".data r2 with
      | some rp =>
        match dropWs1 rp with
        | some rq => rq
        | none => r2
      | none => r2
    match (dropLit "enum".data r3).orElse (fun _ => dropLit "struct".data r3) with
    | none => none
    | some r4 =>
      match dropWs1 r4 with
      | none => none
      | some r5 =>
        match dropLit "Runtime".data r5 with
        | none => none
        | some r6 =>
          let r7 := r6.dropWhile isWsChar
          let r8 :=
            match dropLit "where".data r7 with
            | some rw =>
              match rw with
              | [] => r7
              | c :: _ => if c = lbrace then r7 else rw.dropWhile (fun x => x ≠ lbrace)
            | none => r7
          match dropLit [lbrace] r8 with
          | none => none
          | some r9 =>
            match findLastClose r9 with
            | some k => some (s.length - r9.length, s.length - r9.length + k)
            | none => none

/-- Scan for the leftmost `construct_runtime` match; returns
`(matchStart, palletsStart, palletsEnd)` as absolute indices. -/
def findConstructFrom : List Char → Nat → Option (Nat × Nat × Nat)
  | [], _ => none
  | c :: t, i =>
    match tryConstructAt (c :: t) with
    | some (a, b) => some (i, i + a, i + b)
    | none => findConstructFrom t (i + 1)

/-- Leftmost match of the `construct_runtime` regex. -/
def findConstruct (s : List Char) : Option (Nat × Nat × Nat) :=
  findConstructFrom s 0

/-! ## The pallet injection engine (`src/ops/substrate_add.rs:61-140`) -/

/-- The generated skeleton implementation block
(`src/ops/substrate_add.rs:85-87`): `impl MOD::Config for Runtime { \n`,
a tab-indented placeholder comment line, and a closing brace. -/
def palletTraitImpl (modName : List Char) : List Char :=
  "impl ".data ++ modName ++ "::Config for Runtime ".data ++ [lbrace] ++ " \n".data
    ++ "\t/* ".data ++ modName ++ " Trait config goes here */ \n".data ++ [rbrace]

/-- The canonical registration entry (`src/ops/substrate_add.rs:89-94`):
a newline, eight spaces, the PascalCase alias, `": "`, the module name
and a trailing comma. -/
def palletConfig (modName : List Char) : List Char :=
  "\n        ".data ++ toPascalCase modName ++ ": ".data ++ modName ++ [',']

/-- Result of `add_pallet_to_runtime`: the text written back to
`runtime/src/lib.rs` and the returned line number. -/
structure InjectResult where
  text : List Char
  lineNumber : Option Nat
deriving DecidableEq, Repr

/-- Steps 1-2 of `add_pallet_to_runtime`
(`src/ops/substrate_add.rs:96-112`): replace the first existing trait
impl block, recording its 1-based start line, or else insert the skeleton
(followed by a blank line) at the start of the `construct_runtime` match,
recording that position's line count + 1. -/
def injectStep1 (modName original : List Char) :
    Except String (List Char × Option Nat) :=
  match findTrait modName original with
  | some (a, b) =>
    .ok (original.take a ++ palletTraitImpl modName ++ original.drop b,
      some (linesCount (original.take a) + 1))
  | none =>
    match findConstruct original with
    | some (mStart, _, _) =>
      .ok (insertChars original mStart (palletTraitImpl modName ++ "\n\n".data),
        some (linesCount (original.take mStart) + 1))
    | none => .error "couldn't find construct_runtime call"

/-- Step 3 of `add_pallet_to_runtime`
(`src/ops/substrate_add.rs:114-139`): re-locate the `pallets` capture in
the edited buffer; replace the first body line mentioning `modName` by
the canonical entry (via Rust `str::replace`, all occurrences of that
line, then `replacen(.., 1)` of the body), or insert the canonical entry
two characters before the body's end. -/
def registerPalletConfig (modName : List Char) (lineNumber : Option Nat)
    (buffer : List Char) : Except String InjectResult :=
  match findConstruct buffer with
  | none => .error "couldn't find construct_runtime call"
  | some (_, pStart, pEnd) =>
    let existingPallets := sliceChars buffer pStart pEnd
    match (rustLines existingPallets).findIdx? (fun line => isSubstr modName line) with
    | some n =>
      let lineToReplace := ((rustLines existingPallets).get? n).getD []
      let newExistingPallets :=
        replaceAll existingPallets lineToReplace ((palletConfig modName).drop 1)
      .ok ⟨replaceFirst buffer existingPallets newExistingPallets, lineNumber⟩
    | none =>
      .ok ⟨insertChars buffer (pEnd - 2) (palletConfig modName), lineNumber⟩

/-- `add_pallet_to_runtime` (`src/ops/substrate_add.rs:61-140`) on the
in-memory text of `runtime/src/lib.rs`. -/
def addPalletToRuntime (crateSpec original : List Char) : Except String InjectResult :=
  let modName := toSnakeCase crateSpec
  match injectStep1 modName original with
  | .error e => .error e
  | .ok (buffer, lineNumber) => registerPalletConfig modName lineNumber buffer

/-- Scan for the closing brace at matching depth: from depth `d ≥ 1`,
return the exclusive end index just past the brace that closes the
block. -/
def matchingBraceScan : List Char → Nat → Nat → Option Nat
  | [], _, _ => none
  | c :: t, i, d =>
    if c = lbrace then matchingBraceScan t (i + 1) (d + 1)
    else if c = rbrace then
      if d ≤ 1 then some (i + 1) else matchingBraceScan t (i + 1) (d - 1)
    else matchingBraceScan t (i + 1) d

/-- The specification's notion of the implementation block's extent ("a
block opened by a recognizable header and closed at matching brace
depth"): the exclusive end index of the block whose opening brace sits at
`openIdx`.  Stated from the spec's words, for comparison with the
regex-based `findTrait`. -/
def specTraitBlockEnd (s : List Char) (openIdx : Nat) : Option Nat :=
  match s.drop openIdx with
  | c :: t => if c = lbrace then matchingBraceScan t (openIdx + 1) 1 else none
  | [] => none

/-! ## Ordered TOML documents (`toml_edit`, as used by
`src/core/manifest.rs` and the manifest edits) -/

/-- A TOML item, restricted to the shapes the covered code reads or
writes: strings, arrays of strings, and tables.  Tables are ordered
association lists; the TOML parser guarantees unique keys. -/
inductive Toml where
  | str (s : String)
  | strArr (xs : List String)
  | table (entries : List (String × Toml))

/-- Key lookup in a table (`toml_edit` index / `get`). -/
def lookupKey : List (String × Toml) → String → Option Toml
  | [], _ => none
  | (k, v) :: t, key => if k = key then some v else lookupKey t key

/-- `toml_edit::Table::insert`: replace the value in place if the key
exists, otherwise append the entry. -/
def insertKey : List (String × Toml) → String → Toml → List (String × Toml)
  | [], key, v => [(key, v)]
  | (k, w) :: t, key, v =>
    if k = key then (k, v) :: t else (k, w) :: insertKey t key v

/-- Filesystem paths as component lists (`PathBuf`). -/
abbrev FsPath := List String

/-- `Path::display` of a relative path: components joined by `/`. -/
def displayPath : FsPath → String
  | [] => ""
  | [x] => x
  | x :: y :: rest => x ++ "/" ++ displayPath (y :: rest)

/-- `p.strip_prefix(root)`; `none` when `root` is not a prefix (the
source `expect`s success). -/
def stripRoot : FsPath → FsPath → Option FsPath
  | [], p => some p
  | _ :: _, [] => none
  | r :: rs, q :: qs => if r = q then stripRoot rs qs else none

/-- One workspace-member entry of `update_top_level_cargo_toml`
(`src/ops/substrate_new.rs:392-404`): strip the destination root, take
`parent()` (dropping the trailing `Cargo.toml` file name) and display.
`none` models the two `expect` panics. -/
def memberEntry (root p : FsPath) : Option String :=
  (stripRoot root p).bind fun rest =>
    if rest.isEmpty then none else some (displayPath rest.dropLast)

/-- `update_top_level_cargo_toml` (`src/ops/substrate_new.rs:379-417`):
insert `profile.release.panic = "unwind"`, then set
`workspace.members` to the displayed parent directories of the member
manifests relative to the destination root (creating the `workspace`
table if absent).  `none` models the `expect`/`unwrap` panics. -/
def updateTopLevelCargoToml (doc : List (String × Toml))
    (workspaceMembers : List FsPath) (nodeTemplateGeneratedFolder : FsPath) :
    Option (List (String × Toml)) :=
  let doc1 := insertKey doc "profile"
    (.table [("release", .table [("panic", .str "unwind")])])
  match workspaceMembers.mapM (memberEntry nodeTemplateGeneratedFolder) with
  | none => none
  | some members =>
    match lookupKey doc1 "workspace" with
    | some (.table wt) =>
      some (insertKey doc1 "workspace" (.table (insertKey wt "members" (.strArr members))))
    | some _ => none
    | none =>
      some (insertKey doc1 "workspace" (.table [("members", .strArr members)]))

/-- The caller-side workspace member list
(`src/ops/substrate_new.rs:517-521`): every discovered manifest path
except the top-level one. -/
def workspaceMembersOf (cargoTomls : List FsPath) (topLevelCargoToml : FsPath) :
    List FsPath :=
  cargoTomls.filter (fun p => p ≠ topLevelCargoToml)

/-- The feature-array update inside `add_pallet_std_to_manifest`
(`src/ops/substrate_add.rs:44-53`): push `"<crate_spec>/std"` unless an
exactly equal entry is already present. -/
def addPalletStdFeature (featureArray : List String) (crateSpec : String) :
    List String :=
  let feature := crateSpec ++ "/std"
  if featureArray.any (fun f => f = feature) then featureArray
  else featureArray ++ [feature]

/-- `add_pallet_std_to_manifest` (`src/ops/substrate_add.rs:39-58`) on
the in-memory runtime manifest: locate `features.std`, apply the
duplicate-checked push, write the array back.  `none` models the
`unwrap` panics on missing/ill-shaped tables. -/
def addPalletStdToManifest (runtimeDoc : List (String × Toml)) (crateSpec : String) :
    Option (List (String × Toml)) :=
  match lookupKey runtimeDoc "features" with
  | some (.table ft) =>
    match lookupKey ft "std" with
    | some (.strArr arr) =>
      some (insertKey runtimeDoc "features"
        (.table (insertKey ft "std" (.strArr (addPalletStdFeature arr crateSpec)))))
    | _ => none
  | _ => none

/-! ## Dependency graph rewriter (`src/ops/substrate_new.rs:327-373`) -/

/-- A value inside a dependency inline table. -/
inductive DepVal where
  | str (s : String)
  | other
deriving DecidableEq

/-- A dependency inline table: ordered entries with unique keys (the
TOML parser rejects duplicates, so removal may drop every occurrence of
the key). -/
abbrev DepTable := List (String × DepVal)

/-- One dependency declaration's value: an inline table, or any other
item shape (skipped by the rewriter). -/
inductive DepItem where
  | inlineTable (t : DepTable)
  | nonInline
deriving DecidableEq

/-- Lookup in an inline table. -/
def lookupDep : DepTable → String → Option DepVal
  | [], _ => none
  | (k, v) :: t, key => if k = key then some v else lookupDep t key

/-- `InlineTable::insert`: replace in place, else append. -/
def insertDep : DepTable → String → DepVal → DepTable
  | [], key, v => [(key, v)]
  | (k, w) :: t, key, v =>
    if k = key then (k, v) :: t else (k, w) :: insertDep t key v

/-- `InlineTable::remove`. -/
def removeDep (t : DepTable) (key : String) : DepTable :=
  t.filter (fun e => e.1 ≠ key)

/-- `dep_table.get("path").and_then(|p| p.as_str())`. -/
def getStrEntry (t : DepTable) (k : String) : Option String :=
  match lookupDep t k with
  | some (.str s) => some s
  | _ => none

/-- `Path::join` of the manifest directory with a relative dependency
path (the covered manifests only use relative paths). -/
def joinPath (dir rel : String) : String :=
  dir ++ "/" ++ rel

/-- The per-declaration body of `process_and_replace_dependencies`
(`src/ops/substrate_new.rs:333-345`): for an inline table with a string
`path` whose resolution does not exist, remove `path` and insert
`git = remote, rev = commit_id`; otherwise leave the value as is. -/
def processDepItem (fsExists : String → Bool) (remote commitId dir : String) :
    DepItem → DepItem
  | .nonInline => .nonInline
  | .inlineTable t =>
    match getStrEntry t "path" with
    | some p =>
      if fsExists (joinPath dir p) then .inlineTable t
      else
        .inlineTable
          (insertDep (insertDep (removeDep t "path") "git" (.str remote))
            "rev" (.str commitId))
    | none => .inlineTable t

/-- `process_and_replace_dependencies` (`src/ops/substrate_new.rs:327-346`)
over a whole dependency table (keys and order preserved). -/
def processAndReplaceDependencies (fsExists : String → Bool)
    (remote commitId dir : String) (deps : List (String × DepItem)) :
    List (String × DepItem) :=
  deps.map (fun e => (e.1, processDepItem fsExists remote commitId dir e.2))

/-- The dependency tables of one manifest that
`replace_path_dependencies_with_git` touches. -/
structure CargoDoc where
  dependencies : Option (List (String × DepItem))
  buildDependencies : Option (List (String × DepItem))
  devDependencies : Option (List (String × DepItem))
  workspaceDependencies : Option (List (String × DepItem))
deriving DecidableEq

/-- `replace_path_dependencies_with_git`
(`src/ops/substrate_new.rs:349-373`): pop the file name to get the
manifest's directory, then process `dependencies`,
`build-dependencies`, `dev-dependencies`, and `workspace.dependencies`
when present. -/
def replacePathDependenciesWithGit (fsExists : String → Bool)
    (cargoTomlPath : FsPath) (remote commitId : String) (doc : CargoDoc) :
    CargoDoc :=
  let dir := displayPath cargoTomlPath.dropLast
  { dependencies :=
      doc.dependencies.map (processAndReplaceDependencies fsExists remote commitId dir)
    buildDependencies :=
      doc.buildDependencies.map (processAndReplaceDependencies fsExists remote commitId dir)
    devDependencies :=
      doc.devDependencies.map (processAndReplaceDependencies fsExists remote commitId dir)
    workspaceDependencies :=
      doc.workspaceDependencies.map (processAndReplaceDependencies fsExists remote commitId dir) }

/-! ## Scaffolding entry points (`src/ops/substrate_new.rs:213-269`).
Filesystem and process effects are passed as explicit functions over an
abstract world state `σ`; the destination-existence guard is the first
statement of both operations, before any effect runs. -/

/-- The relevant fields of `NewOptions`. -/
structure NewOpts where
  path : String
  name : Option String

/-- `new_chain` (`src/ops/substrate_new.rs:213-240`).  The effectful
collaborators (existence check, validations, toolchain check, template
generation, chain make-over) are parameters; the guard `path.exists()`
aborts before any of them is invoked. -/
def newChain {σ : Type} (opts : NewOpts)
    (pathExists : σ → String → Bool)
    (validatePath : String → Except String Unit)
    (getNameF : NewOpts → Except String String)
    (validateName : String → Bool → Except String Unit)
    (validateRustInstallation : σ → Except String σ)
    (generateNodeTemplate : σ → Except String σ)
    (mkChainF : String → σ → Except String σ)
    (w : σ) : Except String σ :=
  if pathExists w opts.path then
    .error ("destination `" ++ opts.path ++ "` already exists\n\n" ++
      "Use `substrate init` to initialize the directory")
  else do
    let _ ← validatePath opts.path
    let name ← getNameF opts
    let _ ← validateName name opts.name.isNone
    let w ← validateRustInstallation w
    let w ← generateNodeTemplate w
    mkChainF name w

/-- `new_contract` (`src/ops/substrate_new.rs:242-269`), with the same
effect-parameter convention as `newChain`. -/
def newContract {σ : Type} (opts : NewOpts)
    (pathExists : σ → String → Bool)
    (validatePath : String → Except String Unit)
    (getNameF : NewOpts → Except String String)
    (validateName : String → Bool → Except String Unit)
    (validateRustInstallation : σ → Except String σ)
    (validateCargoContractInstallation : σ → Except String σ)
    (getParentF : NewOpts → Except String String)
    (createSmartContract : String → String → σ → Except String σ)
    (mkContractF : String → σ → Except String σ)
    (w : σ) : Except String σ :=
  if pathExists w opts.path then
    .error ("destination `" ++ opts.path ++ "` already exists\n\n" ++
      "Use `substrate init` to initialize the directory")
  else do
    let _ ← validatePath opts.path
    let name ← getNameF opts
    let _ ← validateName name opts.name.isNone
    let w ← validateRustInstallation w
    let w ← validateCargoContractInstallation w
    let parent ← getParentF opts
    let w ← createSmartContract name parent w
    mkContractF name w

/-! ## Chain-spec identifier extractor
(`src/bin/substrate-manager/commands/run.rs:51-107`) -/

/-- Rust `str::to_lowercase`, restricted to ASCII (the extractor applies
it to Rust identifiers). -/
def rustLowercase (s : String) : String :=
  String.mk (s.data.map asciiLower)

mutual
/-- The `syn::Pat` shapes distinguished by `extract_field_names`. -/
inductive SynPat where
  | identPat
  | litStr (s : String)
  | litOther
  | pathPat (segments : List String)
  | orPat (cases : SynPatList)
  | unsupported

/-- The sub-pattern list of an or-pattern (`syn`'s punctuated cases). -/
inductive SynPatList where
  | nil
  | cons (p : SynPat) (rest : SynPatList)
end

mutual
/-- `extract_field_names`
(`src/bin/substrate-manager/commands/run.rs:73-107`): binding patterns
and non-string literals yield nothing; a nonempty string literal yields
its value; a path yields its lowercased final segment; an or-pattern
yields the flattened extraction of its cases; any other shape panics
(modelled as `Except.error`). -/
def extractFieldNames : SynPat → Except String (Option (List String))
  | .identPat => .ok none
  | .litStr s => if s.isEmpty then .ok none else .ok (some [s])
  | .litOther => .ok none
  | .pathPat segs =>
    match segs.getLast? with
    | some seg => .ok (some [rustLowercase seg])
    | none => .ok none
  | .orPat cases =>
    match extractFromCases cases with
    | .error e => .error e
    | .ok fields => .ok (some fields)
  | .unsupported => .error "Couldn't extract field with unsupported field pattern"
termination_by structural p => p

/-- `cases.iter().filter_map(extract_field_names).flatten().collect()`
(`src/bin/substrate-manager/commands/run.rs:96-100`), with a panic in
any case propagated. -/
def extractFromCases : SynPatList → Except String (List String)
  | .nil => .ok []
  | .cons p rest =>
    match extractFieldNames p with
    | .error e => .error e
    | .ok r =>
      match extractFromCases rest with
      | .error e => .error e
      | .ok rs => .ok (r.getD [] ++ rs)
termination_by structural l => l
end

/-- The dispatch-arm loop of `extract_fields_from_load_spec`
(`src/bin/substrate-manager/commands/run.rs:59-63`): extend the
accumulator with each arm pattern's extracted fields (skipping `None`
arms), which is the same fold as `extractFromCases`. -/
def extractFromMatchArms (arms : SynPatList) : Except String (List String) :=
  extractFromCases arms

/-- Concatenation of or-pattern case lists. -/
def appendCases : SynPatList → SynPatList → SynPatList
  | .nil, q => q
  | .cons p r, q => .cons p (appendCases r q)

/-! ## Claim-specific concrete inputs and observers -/

/-- The runtime manifest of the C8 scenario. -/
def c8doc : List (String × Toml) :=
  [("features", .table [("std", .strArr ["a/std", "b/std"])])]

/-- The C8 scenario manifest after adding `pallet-foo`. -/
def c8docAfter : List (String × Toml) :=
  [("features", .table [("std", .strArr ["a/std", "b/std", "pallet-foo/std"])])]

/-- Observer: the `profile.release.panic` value of a document. -/
def profileReleasePanic (doc : List (String × Toml)) : Option Toml :=
  match lookupKey doc "profile" with
  | some (.table pt) =>
    match lookupKey pt "release" with
    | some (.table rt) => lookupKey rt "panic"
    | _ => none
  | _ => none

/-- The dispatch arms of the C6 scenario:
`"dev"`, `"local" | "local-testnet"`, `other::PRESET`. -/
def demoArms : SynPatList :=
  .cons (.litStr "dev")
    (.cons (.orPat (.cons (.litStr "local") (.cons (.litStr "local-testnet") .nil)))
      (.cons (.pathPat ["other", "PRESET"]) .nil))

/-- A path component suitable for display-based reasoning: nonempty and
free of `/`. -/
def goodComp (c : String) : Prop :=
  c ≠ "" ∧ ∀ ch ∈ c.data, ch ≠ '/'

/-- Observer: the displayed parent directory of a manifest path relative
to the root. -/
def relParentDisplay (root p : FsPath) : String :=
  displayPath (((stripRoot root p).getD []).dropLast)

/-- The three-manifest destination tree of the C7 scenario. -/
def c7tomls : List FsPath :=
  [["demo", "Cargo.toml"], ["demo", "node", "Cargo.toml"], ["demo", "runtime", "Cargo.toml"]]

/-- A runtime source with no existing impl block for `foo` and one
well-formed aggregation construct. -/
def c2src : List Char :=
  ("// runtime\nconstruct_runtime!(\n    pub struct Runtime \x7b\n" ++
    "        System: system,\n    \x7d\n);\n").data

/-- A runtime source whose existing impl block for `foo` has a body with
nested braces (`fn f() \x7b \x7d`). -/
def c5src : List Char :=
  ("impl foo::Config for Runtime \x7b\n    fn f() \x7b \x7d\n\x7d\n\n" ++
    "construct_runtime!(\n    pub struct Runtime \x7b\n        System: system,\n    \x7d\n);\n").data

/-- A runtime source containing two impl blocks for `foo` and one
well-formed aggregation construct. -/
def c3src : List Char :=
  ("impl foo::Config for Runtime \x7b\n    type A = A;\n\x7d\n\n" ++
    "impl foo::Config for Runtime \x7b\n    type B = B;\n\x7d\n\n" ++
    "construct_runtime!(\n    pub struct Runtime \x7b\n        System: system,\n    \x7d\n);\n").data

/-- A canonical runtime source: no impl block for `foo`, one well-formed
aggregation construct whose body does not mention `foo`. -/
def c3canon : List Char :=
  ("// canonical\nconstruct_runtime!(\n    pub struct Runtime \x7b\n" ++
    "        System: system,\n    \x7d\n);\n").data

/-! ## Helper lemmas -/

/-- A fold ignores elements the step function is inert on. -/
theorem foldl_filter_inert {α σ : Type} (f : σ → α → σ) (p : α → Bool)
    (h : ∀ st a, p a = false → f st a = st) :
    ∀ (l : List α) (st : σ), (l.filter p).foldl f st = l.foldl f st := by
  intro l
  induction l with
  | nil => intro st; rfl
  | cons a t ih =>
    intro st
    by_cases hp : p a = true
    · simp [List.filter_cons, hp, List.foldl_cons, ih]
    · have hp' : p a = false := by
        cases hpa : p a
        · rfl
        · exact absurd hpa hp
      simp [List.filter_cons, hp', List.foldl_cons, ih, h st a hp']

/-- `snakeStep` ignores underscores without touching the state. -/
theorem snakeStep_underscore (st : List Char × Bool) : snakeStep st '_' = st := by
  rfl

/-! ## Claim C10 -/

/-- C10: `to_snake_case` deletes every underscore of its input without
treating it as a word delimiter (its output agrees with the output on
the underscore-free input), hence is not idempotent: for
`s = "hello-world"` the first application yields `"hello_world"` but the
second yields `"helloworld"`; likewise `"pallet_foo"` normalizes to
`"palletfoo"`. -/
theorem toSnakeCase_deletes_underscores_not_idempotent :
    (∀ s : List Char, toSnakeCase s = toSnakeCase (s.filter (fun c => c ≠ '_'))) ∧
    toSnakeCase "hello-world".data = "hello_world".data ∧
    toSnakeCase (toSnakeCase "hello-world".data) = "helloworld".data ∧
    toSnakeCase (toSnakeCase "hello-world".data) ≠ toSnakeCase "hello-world".data ∧
    toSnakeCase "pallet_foo".data = "palletfoo".data := by
  refine ⟨?_, by decide, by decide, by decide, by decide⟩
  intro s
  unfold toSnakeCase
  rw [foldl_filter_inert]
  intro st a ha
  have h : a = '_' := by
    simpa [decide_eq_false_iff_not] using ha
  rw [h, snakeStep_underscore]

/-- Witness for C10: the underscore-deletion law at a concrete input. -/
theorem toSnakeCase_deletes_underscores_witness :
    toSnakeCase "a_b".data = toSnakeCase ("a_b".data.filter (fun c => c ≠ '_')) :=
  toSnakeCase_deletes_underscores_not_idempotent.1 "a_b".data

/-! ## Claim C8 -/

/-- C8: adding a component's `std` feature is duplicate-checked and
idempotent: `["a/std", "b/std"]` plus `pallet-foo` gives
`["a/std", "b/std", "pallet-foo/std"]`, adding it again changes nothing,
and in general the entry is appended exactly when no equal entry is
present; the same holds through the manifest-level operation. -/
theorem addPalletStdFeature_idempotent :
    addPalletStdFeature ["a/std", "b/std"] "pallet-foo" =
      ["a/std", "b/std", "pallet-foo/std"] ∧
    addPalletStdFeature ["a/std", "b/std", "pallet-foo/std"] "pallet-foo" =
      ["a/std", "b/std", "pallet-foo/std"] ∧
    (∀ (arr : List String) (c : String),
      addPalletStdFeature (addPalletStdFeature arr c) c = addPalletStdFeature arr c) ∧
    (∀ (arr : List String) (c : String),
      ((c ++ "/std") ∈ arr → addPalletStdFeature arr c = arr) ∧
      ((c ++ "/std") ∉ arr → addPalletStdFeature arr c = arr ++ [c ++ "/std"])) ∧
    addPalletStdToManifest c8doc "pallet-foo" = some c8docAfter ∧
    addPalletStdToManifest c8docAfter "pallet-foo" = some c8docAfter := by
  refine ⟨by decide, by decide, ?_, ?_, by rfl, by rfl⟩
  · intro arr c
    by_cases h : arr.any (fun f => f = c ++ "/std") = true
    · simp [addPalletStdFeature, h]
    · have h' : arr.any (fun f => f = c ++ "/std") = false := by
        cases hh : arr.any (fun f => f = c ++ "/std")
        · rfl
        · exact absurd hh h
      simp [addPalletStdFeature, h']
  · intro arr c
    constructor
    · intro hmem
      have h : arr.any (fun f => f = c ++ "/std") = true := by
        simp [List.any_eq_true]
        exact hmem
      simp [addPalletStdFeature, h]
    · intro hmem
      have h : arr.any (fun f => f = c ++ "/std") = false := by
        simp [List.any_eq_true]
        intro x hx hc
        exact absurd (hc ▸ hx) hmem
      simp [addPalletStdFeature, h]

/-- Witness for C8: the append-only-if-absent law at a concrete input. -/
theorem addPalletStdFeature_witness :
    addPalletStdFeature ["a/std"] "b" = ["a/std"] ++ ["b" ++ "/std"] :=
  (addPalletStdFeature_idempotent.2.2.2.1 ["a/std"] "b").2 (by decide)

/-! ## Claim C1 -/

/-- Inserting a key makes it the looked-up value. -/
theorem lookupKey_insertKey_self (t : List (String × Toml)) (k : String) (v : Toml) :
    lookupKey (insertKey t k v) k = some v := by
  induction t with
  | nil => simp [insertKey, lookupKey]
  | cons e t ih =>
    by_cases h : e.1 = k
    · simp [insertKey, lookupKey, h]
    · simp [insertKey, lookupKey, h, ih]

/-- Inserting one key does not affect lookups of another. -/
theorem lookupKey_insertKey_ne (t : List (String × Toml)) (k k' : String) (v : Toml)
    (h : k' ≠ k) : lookupKey (insertKey t k' v) k = lookupKey t k := by
  induction t with
  | nil => simp [insertKey, lookupKey, h]
  | cons e t ih =>
    by_cases he : e.1 = k'
    · simp [insertKey, lookupKey, he, h]
    · simp only [insertKey, he, if_false, lookupKey]
      by_cases hek : e.1 = k
      · simp [hek]
      · simp [hek, ih]

/-- C1 counterexample: on the empty root manifest the rewriter inserts
`profile.release.panic = "unwind"`, which is not the abort value the
claim requires. -/
theorem updateTopLevelCargoToml_panic_counterexample :
    (updateTopLevelCargoToml [] [] []).map profileReleasePanic =
      some (some (.str "unwind")) ∧
    some (some (Toml.str "unwind")) ≠ some (some (Toml.str "abort")) := by
  constructor
  · rfl
  · intro h
    have h' : Toml.str "unwind" = Toml.str "abort" := by
      injection h with h1
      injection h1
    injection h' with h2
    exact absurd h2 (by decide)

/-- C1 amended: whenever `update_top_level_cargo_toml` succeeds, the
resulting document's `profile.release.panic` value is `"unwind"` — the
inserted release-profile override keeps stack unwinding enabled (it is
not an abort-equivalent setting). -/
theorem updateTopLevelCargoToml_panic_unwind
    (doc : List (String × Toml)) (ms : List FsPath) (root : FsPath)
    (d' : List (String × Toml))
    (h : updateTopLevelCargoToml doc ms root = some d') :
    profileReleasePanic d' = some (.str "unwind") := by
  unfold updateTopLevelCargoToml at h
  cases hm : ms.mapM (memberEntry root) with
  | none => rw [hm] at h; exact absurd h (by simp)
  | some members =>
    rw [hm] at h
    dsimp only at h
    have hprof :
        lookupKey (insertKey doc "profile"
          (.table [("release", .table [("panic", .str "unwind")])])) "profile" =
        some (.table [("release", .table [("panic", .str "unwind")])]) :=
      lookupKey_insertKey_self doc "profile" _
    cases hw : lookupKey (insertKey doc "profile"
        (.table [("release", .table [("panic", .str "unwind")])])) "workspace" with
    | none =>
      rw [hw] at h
      have hd : d' = insertKey (insertKey doc "profile"
          (.table [("release", .table [("panic", .str "unwind")])])) "workspace"
          (.table [("members", .strArr members)]) := by
        injection h with h1
        exact h1.symm
      subst hd
      unfold profileReleasePanic
      rw [lookupKey_insertKey_ne _ _ _ _ (by decide), hprof]
      rfl
    | some wv =>
      cases wv with
      | table wt =>
        rw [hw] at h
        have hd : d' = insertKey (insertKey doc "profile"
            (.table [("release", .table [("panic", .str "unwind")])])) "workspace"
            (.table (insertKey wt "members" (.strArr members))) := by
          injection h with h1
          exact h1.symm
        subst hd
        unfold profileReleasePanic
        rw [lookupKey_insertKey_ne _ _ _ _ (by decide), hprof]
        rfl
      | str s => rw [hw] at h; exact absurd h (by simp)
      | strArr xs => rw [hw] at h; exact absurd h (by simp)

/-- Witness for C1's amended theorem at the empty document. -/
theorem updateTopLevelCargoToml_panic_unwind_witness :
    profileReleasePanic
      [("profile", .table [("release", .table [("panic", .str "unwind")])]),
       ("workspace", .table [("members", .strArr [])])] = some (.str "unwind") :=
  updateTopLevelCargoToml_panic_unwind [] [] []
    [("profile", .table [("release", .table [("panic", .str "unwind")])]),
     ("workspace", .table [("members", .strArr [])])] (by rfl)

/-! ## Claim C4 -/

/-- Removal eliminates the key. -/
theorem lookupDep_removeDep_self (t : DepTable) (k : String) :
    lookupDep (removeDep t k) k = none := by
  induction t with
  | nil => rfl
  | cons e t ih =>
    by_cases h : e.1 = k
    · simp [removeDep, List.filter_cons, h] at ih ⊢
      exact ih
    · simp [removeDep, List.filter_cons, h, lookupDep] at ih ⊢
      exact ih

/-- Inserting one key does not affect dependency lookups of another. -/
theorem lookupDep_insertDep_ne (t : DepTable) (k k' : String) (v : DepVal)
    (h : k' ≠ k) : lookupDep (insertDep t k' v) k = lookupDep t k := by
  induction t with
  | nil => simp [insertDep, lookupDep, h]
  | cons e t ih =>
    by_cases he : e.1 = k'
    · simp [insertDep, lookupDep, he, h]
    · simp only [insertDep, he, if_false, lookupDep]
      by_cases hek : e.1 = k
      · simp [hek]
      · simp [hek, ih]

/-- A second pass over one declaration changes nothing. -/
theorem processDepItem_idem (fsExists : String → Bool) (remote commitId dir : String)
    (v : DepItem) :
    processDepItem fsExists remote commitId dir
      (processDepItem fsExists remote commitId dir v) =
    processDepItem fsExists remote commitId dir v := by
  cases v with
  | nonInline => rfl
  | inlineTable t =>
    unfold processDepItem
    cases hp : getStrEntry t "path" with
    | none => simp [hp]
    | some p =>
      by_cases hex : fsExists (joinPath dir p) = true
      · simp [hp, hex]
      · have hex' : fsExists (joinPath dir p) = false := by
          cases hh : fsExists (joinPath dir p)
          · rfl
          · exact absurd hh hex
        have hnone : getStrEntry
            (insertDep (insertDep (removeDep t "path") "git" (.str remote))
              "rev" (.str commitId)) "path" = none := by
          unfold getStrEntry
          rw [lookupDep_insertDep_ne _ _ _ _ (by decide),
            lookupDep_insertDep_ne _ _ _ _ (by decide),
            lookupDep_removeDep_self]
        simp [hp, hex', hnone]

/-- A second pass over a dependency table changes nothing. -/
theorem processAndReplaceDependencies_idem (fsExists : String → Bool)
    (remote commitId dir : String) (deps : List (String × DepItem)) :
    processAndReplaceDependencies fsExists remote commitId dir
      (processAndReplaceDependencies fsExists remote commitId dir deps) =
    processAndReplaceDependencies fsExists remote commitId dir deps := by
  unfold processAndReplaceDependencies
  rw [List.map_map]
  apply List.map_congr_left
  intro e _
  simp [Function.comp, processDepItem_idem]

/-- C4: the dependency rewrite is idempotent, resolving path
declarations are untouched, non-resolving ones become
`git = remote, rev = pin`, and declarations without a `path` key (in
particular already-converted ones) are unchanged. -/
theorem replacePathDependencies_idempotent :
    (∀ (fsExists : String → Bool) (p : FsPath) (remote commitId : String)
      (doc : CargoDoc),
      replacePathDependenciesWithGit fsExists p remote commitId
        (replacePathDependenciesWithGit fsExists p remote commitId doc) =
      replacePathDependenciesWithGit fsExists p remote commitId doc) ∧
    (∀ (fsExists : String → Bool) (remote commitId dir : String) (t : DepTable)
      (p : String),
      getStrEntry t "path" = some p → fsExists (joinPath dir p) = true →
      processDepItem fsExists remote commitId dir (.inlineTable t) = .inlineTable t) ∧
    (∀ (fsExists : String → Bool) (remote commitId dir : String) (t : DepTable)
      (p : String),
      getStrEntry t "path" = some p → fsExists (joinPath dir p) = false →
      processDepItem fsExists remote commitId dir (.inlineTable t) =
        .inlineTable (insertDep (insertDep (removeDep t "path") "git" (.str remote))
          "rev" (.str commitId))) ∧
    (∀ (fsExists : String → Bool) (remote commitId dir : String) (t : DepTable),
      getStrEntry t "path" = none →
      processDepItem fsExists remote commitId dir (.inlineTable t) = .inlineTable t) := by
  refine ⟨?_, ?_, ?_, ?_⟩
  · intro fsExists p remote commitId doc
    unfold replacePathDependenciesWithGit
    cases doc with
    | mk deps bdeps ddeps wdeps =>
      simp only [CargoDoc.mk.injEq]
      refine ⟨?_, ?_, ?_, ?_⟩ <;>
        first
        | (cases deps with
           | none => rfl
           | some l => simp [Option.map, processAndReplaceDependencies_idem])
        | (cases bdeps with
           | none => rfl
           | some l => simp [Option.map, processAndReplaceDependencies_idem])
        | (cases ddeps with
           | none => rfl
           | some l => simp [Option.map, processAndReplaceDependencies_idem])
        | (cases wdeps with
           | none => rfl
           | some l => simp [Option.map, processAndReplaceDependencies_idem])
  · intro fsExists remote commitId dir t p hp hex
    simp [processDepItem, hp, hex]
  · intro fsExists remote commitId dir t p hp hex
    simp [processDepItem, hp, hex]
  · intro fsExists remote commitId dir t hp
    simp [processDepItem, hp]

/-- Witness for C4: a broken path declaration is converted at a concrete
input. -/
theorem replacePathDependencies_witness :
    processDepItem (fun _ => false) "https://example/tmpl.git" "abc" "demo"
      (.inlineTable [("path", .str "../x")]) =
      .inlineTable [("git", .str "https://example/tmpl.git"), ("rev", .str "abc")] :=
  (replacePathDependencies_idempotent.2.2.1 (fun _ => false)
    "https://example/tmpl.git" "abc" "demo" [("path", .str "../x")] "../x"
    (by rfl) (by rfl)).trans (by rfl)

/-! ## Claim C9 -/

/-- C9: when the destination path already exists, `new_chain` and
`new_contract` fail immediately with the "already exists" error; the
result does not depend on any of the effectful collaborators (toolchain
validation, template fetch, contract creation, make-over), which are
therefore never invoked, and the world `w` is returned unchanged in no
branch — no filesystem mutation happens. -/
theorem newChain_newContract_guard :
    (∀ (σ : Type) (opts : NewOpts) (pathExists : σ → String → Bool)
      (vP : String → Except String Unit) (gN : NewOpts → Except String String)
      (vN : String → Bool → Except String Unit)
      (vR gT : σ → Except String σ) (mC : String → σ → Except String σ) (w : σ),
      pathExists w opts.path = true →
      newChain opts pathExists vP gN vN vR gT mC w =
        .error ("destination `" ++ opts.path ++ "` already exists\n\n" ++
          "Use `substrate init` to initialize the directory")) ∧
    (∀ (σ : Type) (opts : NewOpts) (pathExists : σ → String → Bool)
      (vP : String → Except String Unit) (gN : NewOpts → Except String String)
      (vN : String → Bool → Except String Unit)
      (vR vC : σ → Except String σ) (gP : NewOpts → Except String String)
      (cS : String → String → σ → Except String σ)
      (mC : String → σ → Except String σ) (w : σ),
      pathExists w opts.path = true →
      newContract opts pathExists vP gN vN vR vC gP cS mC w =
        .error ("destination `" ++ opts.path ++ "` already exists\n\n" ++
          "Use `substrate init` to initialize the directory")) := by
  constructor
  · intro σ opts pathExists vP gN vN vR gT mC w h
    simp [newChain, h]
  · intro σ opts pathExists vP gN vN vR vC gP cS mC w h
    simp [newContract, h]

/-- Witness for C9 at a concrete world and option set. -/
theorem newChain_guard_witness :
    newChain ⟨"demo", none⟩ (fun _ _ => true) (fun _ => .ok ())
      (fun _ => .ok "demo") (fun _ _ => .ok ()) .ok .ok (fun _ w => .ok w) () =
      .error ("destination `" ++ "demo" ++ "` already exists\n\n" ++
        "Use `substrate init` to initialize the directory") :=
  newChain_newContract_guard.1 Unit ⟨"demo", none⟩ (fun _ _ => true) (fun _ => .ok ())
    (fun _ => .ok "demo") (fun _ _ => .ok ()) .ok .ok (fun _ w => .ok w) () (by rfl)

/-! ## Claim C6 -/

/-- Successful case extraction distributes over concatenation of
or-pattern cases (the union law at list level). -/
theorem extractFromCases_append : ∀ (ps qs : SynPatList) (xs ys : List String),
    extractFromCases ps = .ok xs → extractFromCases qs = .ok ys →
    extractFromCases (appendCases ps qs) = .ok (xs ++ ys)
  | .nil, qs, xs, ys, hp, hq => by
    have hxs : xs = [] := by
      have h0 : (Except.ok [] : Except String (List String)) = .ok xs := hp
      injection h0 with h1
      exact h1.symm
    subst hxs
    simpa [appendCases] using hq
  | .cons p r, qs, xs, ys, hp, hq => by
    unfold extractFromCases at hp
    cases he : extractFieldNames p with
    | error e => rw [he] at hp; exact absurd hp (by simp)
    | ok rp =>
      rw [he] at hp
      cases hr : extractFromCases r with
      | error e => rw [hr] at hp; exact absurd hp (by simp)
      | ok rr =>
        rw [hr] at hp
        have hxs : xs = rp.getD [] ++ rr := by
          injection hp with h1
          exact h1.symm
        subst hxs
        have ih := extractFromCases_append r qs rr ys hr hq
        show extractFromCases (.cons p (appendCases r qs)) = _
        unfold extractFromCases
        rw [he, ih]
        simp [List.append_assoc]
termination_by structural ps => ps

/-- C6: the identifier extractor's per-pattern rules, the or-pattern
union law (concatenation in first-seen order), and the scenario: the
arms `"dev"`, `"local" | "local-testnet"`, `other::PRESET` extract to
`["dev", "local", "local-testnet", "preset"]`. -/
theorem extractFieldNames_rules :
    (∀ s : String, s ≠ "" → extractFieldNames (.litStr s) = .ok (some [s])) ∧
    extractFieldNames (.litStr "") = .ok none ∧
    (∀ (segs : List String) (seg : String), segs.getLast? = some seg →
      extractFieldNames (.pathPat segs) = .ok (some [rustLowercase seg])) ∧
    extractFieldNames .identPat = .ok none ∧
    (∀ (ps qs : SynPatList) (xs ys : List String),
      extractFromCases ps = .ok xs → extractFromCases qs = .ok ys →
      extractFieldNames (.orPat (appendCases ps qs)) = .ok (some (xs ++ ys))) ∧
    extractFromMatchArms demoArms = .ok ["dev", "local", "local-testnet", "preset"] := by
  refine ⟨?_, by rfl, ?_, by rfl, ?_, by rfl⟩
  · intro s hs
    have h : s.isEmpty = false := by
      cases h2 : s.isEmpty
      · rfl
      · exact absurd ((String.isEmpty_iff s).mp h2) hs
    simp [extractFieldNames, h]
  · intro segs seg hlast
    simp [extractFieldNames, hlast]
  · intro ps qs xs ys hp hq
    have h := extractFromCases_append ps qs xs ys hp hq
    simp [extractFieldNames, h]

/-- Witness for C6: the union law applied to the scenario's or-pattern. -/
theorem extractFieldNames_rules_witness :
    extractFieldNames (.orPat (appendCases
      (.cons (.litStr "local") .nil) (.cons (.litStr "local-testnet") .nil))) =
      .ok (some (["local"] ++ ["local-testnet"])) :=
  extractFieldNames_rules.2.2.2.2.1 (.cons (.litStr "local") .nil)
    (.cons (.litStr "local-testnet") .nil) ["local"] ["local-testnet"]
    (by rfl) (by rfl)

/-! ## Claim C7 -/

/-- Appending slash-free heads to slash-boundary tails is injective. -/
theorem slashfree_append_inj (a : List Char) : ∀ (b u v : List Char),
    (∀ c ∈ a, c ≠ '/') → (∀ c ∈ b, c ≠ '/') →
    (u = [] ∨ ∃ w, u = '/' :: w) → (v = [] ∨ ∃ w, v = '/' :: w) →
    a ++ u = b ++ v → a = b ∧ u = v := by
  induction a with
  | nil =>
    intro b u v _ hb hu _ h
    cases b with
    | nil => exact ⟨rfl, h⟩
    | cons c bs =>
      exfalso
      rcases hu with hu | ⟨w, hw⟩
      · subst hu; simp at h
      · subst hw
        have hc : c = '/' := by
          simp only [List.nil_append, List.cons_append, List.cons.injEq] at h
          exact h.1.symm
        exact hb c (by simp) hc
  | cons x as ih =>
    intro b u v ha hb hu hv h
    cases b with
    | nil =>
      exfalso
      rcases hv with hv | ⟨w, hw⟩
      · subst hv; simp at h
      · subst hw
        have hx : x = '/' := by
          simp only [List.nil_append, List.cons_append, List.cons.injEq] at h
          exact h.1
        exact ha x (by simp) hx
    | cons y bs =>
      simp only [List.cons_append, List.cons.injEq] at h
      obtain ⟨hxy, ht⟩ := h
      obtain ⟨h1, h2⟩ := ih bs u v (fun c hc => ha c (by simp [hc]))
        (fun c hc => hb c (by simp [hc])) hu hv ht
      exact ⟨by rw [hxy, h1], h2⟩

/-- Unfolding `displayPath` on a two-or-more component path. -/
theorem displayPath_data_cons_cons (x y : String) (rest : List String) :
    (displayPath (x :: y :: rest)).data =
      x.data ++ '/' :: (displayPath (y :: rest)).data := by
  show (x ++ "/" ++ displayPath (y :: rest)).data = _
  rw [String.data_append, String.data_append]
  simp

/-- `displayPath` is injective on nonempty paths of good components. -/
theorem displayPath_inj (p : List String) : ∀ (q : List String),
    p ≠ [] → q ≠ [] → (∀ c ∈ p, goodComp c) → (∀ c ∈ q, goodComp c) →
    displayPath p = displayPath q → p = q := by
  induction p with
  | nil => intro q hp; exact absurd rfl hp
  | cons x p' ih =>
    intro q _ hq hgp hgq h
    cases q with
    | nil => exact absurd rfl hq
    | cons y q' =>
      cases p' with
      | nil =>
        cases q' with
        | nil =>
          have hxy : x = y := h
          rw [hxy]
        | cons z q'' =>
          exfalso
          have hd : x.data ++ [] = y.data ++ ('/' :: (displayPath (z :: q'')).data) := by
            have hc := congrArg String.data h
            rw [displayPath_data_cons_cons] at hc
            simpa [displayPath] using hc
          obtain ⟨_, habs⟩ := slashfree_append_inj x.data y.data []
            ('/' :: (displayPath (z :: q'')).data)
            (hgp x (by simp)).2 (hgq y (by simp)).2 (Or.inl rfl) (Or.inr ⟨_, rfl⟩) hd
          simp at habs
      | cons x' p'' =>
        cases q' with
        | nil =>
          exfalso
          have hd : x.data ++ ('/' :: (displayPath (x' :: p'')).data) = y.data ++ [] := by
            have hc := congrArg String.data h
            rw [displayPath_data_cons_cons] at hc
            simpa [displayPath] using hc
          obtain ⟨_, habs⟩ := slashfree_append_inj x.data y.data
            ('/' :: (displayPath (x' :: p'')).data) []
            (hgp x (by simp)).2 (hgq y (by simp)).2 (Or.inr ⟨_, rfl⟩) (Or.inl rfl) hd
          simp at habs
        | cons y' q'' =>
          have hd : x.data ++ ('/' :: (displayPath (x' :: p'')).data) =
              y.data ++ ('/' :: (displayPath (y' :: q'')).data) := by
            have hc := congrArg String.data h
            rw [displayPath_data_cons_cons, displayPath_data_cons_cons] at hc
            exact hc
          obtain ⟨h1, h2⟩ := slashfree_append_inj x.data y.data
            ('/' :: (displayPath (x' :: p'')).data)
            ('/' :: (displayPath (y' :: q'')).data)
            (hgp x (by simp)).2 (hgq y (by simp)).2
            (Or.inr ⟨_, rfl⟩) (Or.inr ⟨_, rfl⟩) hd
          have hx : x = y := String.ext h1
          have htails : (displayPath (x' :: p'')).data = (displayPath (y' :: q'')).data := by
            injection h2
          have htail : displayPath (x' :: p'') = displayPath (y' :: q'') := String.ext htails
          have hrec := ih (y' :: q'') (by simp) (by simp)
            (fun c hc => hgp c (by simp [List.mem_cons] at hc ⊢; tauto))
            (fun c hc => hgq c (by simp [List.mem_cons] at hc ⊢; tauto)) htail
          rw [hx, hrec]

/-- Stripping a prefix that is literally there succeeds. -/
theorem stripRoot_append (r q : FsPath) : stripRoot r (r ++ q) = some q := by
  induction r with
  | nil => rfl
  | cons c rs ih => simp [stripRoot, ih]

/-- The member entry contributed by a manifest under the root. -/
theorem memberEntry_eq (root rest : FsPath) :
    memberEntry root (root ++ (rest ++ ["Cargo.toml"])) = some (displayPath rest) := by
  unfold memberEntry
  rw [stripRoot_append]
  simp [List.dropLast_concat]

/-- `relParentDisplay` on a manifest of the expected shape. -/
theorem relParentDisplay_eq (root rest : FsPath) :
    relParentDisplay root (root ++ (rest ++ ["Cargo.toml"])) = displayPath rest := by
  unfold relParentDisplay
  rw [stripRoot_append]
  simp [List.dropLast_concat]

/-- `mapM` over member entries succeeds on manifests under the root. -/
theorem mapM_memberEntry (root : FsPath) : ∀ (l : List FsPath),
    (∀ p ∈ l, ∃ rest, p = root ++ (rest ++ ["Cargo.toml"])) →
    l.mapM (memberEntry root) = some (l.map (relParentDisplay root)) := by
  intro l
  induction l with
  | nil => intro; rfl
  | cons p t ih =>
    intro h
    obtain ⟨rest, hp⟩ := h p (by simp)
    rw [List.mapM_cons, hp, memberEntry_eq, ih (fun q hq => h q (by simp [hq]))]
    simp [hp, relParentDisplay_eq]

/-- C7: on the scenario tree the members array written into the root
manifest's workspace table is exactly `["node", "runtime"]`; in general
every discovered manifest except the root manifest contributes its
parent directory relative to the root, the whole member list resolves,
and it contains no duplicates. -/
theorem workspace_member_computation :
    updateTopLevelCargoToml [] (workspaceMembersOf c7tomls ["demo", "Cargo.toml"]) ["demo"] =
      some [("profile", .table [("release", .table [("panic", .str "unwind")])]),
            ("workspace", .table [("members", .strArr ["node", "runtime"])])] ∧
    (∀ (root : FsPath) (tomls : List FsPath),
      (∀ p ∈ tomls, ∃ rest, p = root ++ (rest ++ ["Cargo.toml"]) ∧ ∀ c ∈ rest, goodComp c) →
      tomls.Nodup →
      (workspaceMembersOf tomls (root ++ ["Cargo.toml"])).mapM (memberEntry root) =
        some ((workspaceMembersOf tomls (root ++ ["Cargo.toml"])).map (relParentDisplay root)) ∧
      ((workspaceMembersOf tomls (root ++ ["Cargo.toml"])).map (relParentDisplay root)).Nodup) := by
  constructor
  · rfl
  · intro root tomls h1 h2
    have hmem : ∀ p ∈ workspaceMembersOf tomls (root ++ ["Cargo.toml"]), p ∈ tomls := by
      intro p hp
      exact (List.mem_filter.mp hp).1
    constructor
    · exact mapM_memberEntry root _ (fun p hp => ⟨(h1 p (hmem p hp)).choose,
        (h1 p (hmem p hp)).choose_spec.1⟩)
    · apply List.Nodup.map_on
      · intro p hp q hq heq
        obtain ⟨restP, hpf, hgP⟩ := h1 p (hmem p hp)
        obtain ⟨restQ, hqf, hgQ⟩ := h1 q (hmem q hq)
        have hpne : p ≠ root ++ ["Cargo.toml"] := by
          have := (List.mem_filter.mp hp).2
          simpa using this
        have hqne : q ≠ root ++ ["Cargo.toml"] := by
          have := (List.mem_filter.mp hq).2
          simpa using this
        have hrestP : restP ≠ [] := by
          intro hr
          apply hpne
          rw [hpf, hr]
          rfl
        have hrestQ : restQ ≠ [] := by
          intro hr
          apply hqne
          rw [hqf, hr]
          rfl
        rw [hpf, hqf, relParentDisplay_eq, relParentDisplay_eq] at heq
        have : restP = restQ := displayPath_inj restP restQ hrestP hrestQ hgP hgQ heq
        rw [hpf, hqf, this]
      · exact List.Nodup.filter _ h2

/-- Witness for C7's general part at the scenario tree. -/
theorem workspace_member_computation_witness :
    (workspaceMembersOf c7tomls (["demo"] ++ ["Cargo.toml"])).mapM (memberEntry ["demo"]) =
      some ((workspaceMembersOf c7tomls (["demo"] ++ ["Cargo.toml"])).map
        (relParentDisplay ["demo"])) ∧
    ((workspaceMembersOf c7tomls (["demo"] ++ ["Cargo.toml"])).map
      (relParentDisplay ["demo"])).Nodup :=
  (workspace_member_computation.2 ["demo"] c7tomls
    (by
      intro p hp
      simp [c7tomls] at hp
      rcases hp with h | h | h
      · exact ⟨[], by simp [h], by simp⟩
      · refine ⟨["node"], by simp [h], ?_⟩
        intro c hc
        simp at hc
        subst hc
        exact ⟨by decide, by decide⟩
      · refine ⟨["runtime"], by simp [h], ?_⟩
        intro c hc
        simp at hc
        subst hc
        exact ⟨by decide, by decide⟩)
    (by decide))

/-! ## Claim C2 -/

/-- C2 counterexample: on `c2src` no impl block for `foo` exists, the
skeleton-insertion path runs, and `add_pallet_to_runtime` returns
`Some 2` — not `None` as the claim states. -/
theorem injectStep1_insert_counterexample :
    findTrait (toSnakeCase "foo".data) c2src = none ∧
    (addPalletToRuntime "foo".data c2src).map InjectResult.lineNumber = .ok (some 2) ∧
    (Except.ok (some 2) : Except String (Option Nat)) ≠ .ok none := by
  refine ⟨by rfl, by rfl, by simp⟩

/-- C2 amended: when no existing impl block matches and the aggregation
construct is found at index `m`, `add_pallet_to_runtime` inserts the
generated skeleton (plus a blank line) immediately before the construct
and the returned line number is `Some` (one plus the line count of the
text before the construct), not `None`. -/
theorem injectStep1_insert_amended (crateSpec s : List Char) (m ps pe : Nat)
    (h1 : findTrait (toSnakeCase crateSpec) s = none)
    (h2 : findConstruct s = some (m, ps, pe)) :
    addPalletToRuntime crateSpec s =
      registerPalletConfig (toSnakeCase crateSpec)
        (some (linesCount (s.take m) + 1))
        (insertChars s m (palletTraitImpl (toSnakeCase crateSpec) ++ "\n\n".data)) := by
  simp only [addPalletToRuntime, injectStep1, h1, h2]

/-- Witness for C2's amended theorem on `c2src`. -/
theorem injectStep1_insert_amended_witness :
    addPalletToRuntime "foo".data c2src =
      registerPalletConfig (toSnakeCase "foo".data)
        (some (linesCount (c2src.take 11) + 1))
        (insertChars c2src 11 (palletTraitImpl (toSnakeCase "foo".data) ++ "\n\n".data)) :=
  injectStep1_insert_amended "foo".data c2src 11 55 84 (by rfl) (by rfl)

/-! ## Claim C3 -/

set_option maxRecDepth 400000 in
/-- C3 counterexample: `c3src` contains one well-formed aggregation
construct but two impl blocks for `foo`; after two injections the text
still contains two impl blocks for `foo`, not exactly one. -/
theorem inject_idempotence_counterexample :
    countSubstr "construct_runtime!(".data c3src = 1 ∧
    ((do
      let r1 ← addPalletToRuntime "foo".data c3src
      let r2 ← addPalletToRuntime "foo".data r1.text
      pure (countSubstr ("impl foo::Config for Runtime".data) r2.text)) :
      Except String Nat) = .ok 2 ∧
    (2 : Nat) ≠ 1 := by
  refine ⟨by rfl, by rfl, by decide⟩

set_option maxRecDepth 400000 in
/-- C3 amended: double injection is count-idempotent on sources with at
most one impl block for the component: on the canonical template
`c3canon` (no impl block for `foo`, one aggregation construct, body not
mentioning `foo`) the twice-injected text has exactly one impl block for
`foo` and exactly one aggregation-body line referencing `foo`. -/
theorem inject_idempotence_amended :
    findTrait (toSnakeCase "foo".data) c3canon = none ∧
    countSubstr "construct_runtime!(".data c3canon = 1 ∧
    ((do
      let r1 ← addPalletToRuntime "foo".data c3canon
      let r2 ← addPalletToRuntime "foo".data r1.text
      match findConstruct r2.text with
      | some (_, ps, pe) =>
        pure (countSubstr ("impl foo::Config for Runtime".data) r2.text,
          (rustLines (sliceChars r2.text ps pe)).countP
            (fun l => isSubstr (toSnakeCase "foo".data) l))
      | none => Except.error "no construct") : Except String (Nat × Nat)) = .ok (1, 1) := by
  refine ⟨by rfl, by rfl, by rfl⟩

/-! ## Claim C5 -/

/-- A consumed literal is a prefix of what it was consumed from. -/
theorem dropLit_some (lit s r : List Char) (h : dropLit lit s = some r) :
    s = lit ++ r := by
  unfold dropLit at h
  split at h
  next hp =>
    obtain ⟨t2, ht⟩ := List.isPrefixOf_iff_prefix.mp hp
    injection h with h1
    subst h1
    rw [← ht, List.drop_left]
  next => exact absurd h (by simp)

/-- Consumed whitespace is a nonempty prefix. -/
theorem dropWs1_some (s r : List Char) (h : dropWs1 s = some r) :
    ∃ w, w ≠ [] ∧ s = w ++ r := by
  cases s with
  | nil => exact absurd h (by simp [dropWs1])
  | cons c t =>
    simp only [dropWs1] at h
    split at h
    next hw =>
      injection h with h1
      subst h1
      refine ⟨c :: t.takeWhile isWsChar, by simp, ?_⟩
      simp [List.takeWhile_append_dropWhile]
    next => exact absurd h (by simp)

/-- Structure of a successful `pallet_trait_existing` match: the matched
text is a header, an opening brace, a nonempty brace-free body, and the
first closing brace after the header — nothing beyond it. -/
theorem tryTraitAt_decomp (modName t : List Char) (len : Nat)
    (h : tryTraitAt modName t = some len) :
    ∃ pre body rest, t = pre ++ [lbrace] ++ body ++ [rbrace] ++ rest ∧
      len = pre.length + body.length + 2 ∧ body ≠ [] ∧ ∀ c ∈ body, c ≠ rbrace := by
  unfold tryTraitAt at h
  split at h
  next => simp at h
  next r1 heq1 =>
  split at h
  next => simp at h
  next r2 heq2 =>
  split at h
  next => simp at h
  next r3 heq3 =>
  split at h
  next => simp at h
  next r4 heq4 =>
  split at h
  next => simp at h
  next r5 heq5 =>
  split at h
  next => simp at h
  next r6 heq6 =>
  split at h
  next => simp at h
  next r7 heq7 =>
  split at h
  next => simp at h
  next r8 heq8 =>
  split at h
  next => simp at h
  next r9 heq9 =>
  split at h
  next => simp at h
  next c9 r9t =>
  split at h
  next => simp at h
  next hc9 =>
  split at h
  next b rest heqdw =>
    split at h
    next hbr =>
      injection h with hlen
      have e1 := dropLit_some _ _ _ heq1
      obtain ⟨w1, hw1ne, e2⟩ := dropWs1_some _ _ heq2
      have e3 := dropLit_some _ _ _ heq3
      obtain ⟨w2, hw2ne, e4⟩ := dropWs1_some _ _ heq4
      have e5 := dropLit_some _ _ _ heq5
      obtain ⟨w3, hw3ne, e6⟩ := dropWs1_some _ _ heq6
      have e7 := dropLit_some _ _ _ heq7
      obtain ⟨w4, hw4ne, e8⟩ := dropWs1_some _ _ heq8
      have e9 := dropLit_some _ _ _ heq9
      have hr9 : c9 :: r9t =
          (c9 :: r9t).takeWhile (fun x => x ≠ rbrace) ++ b :: rest := by
        rw [← heqdw, List.takeWhile_append_dropWhile]
      have hbody_ne : (c9 :: r9t).takeWhile (fun x => x ≠ rbrace) ≠ [] := by
        simp [List.takeWhile_cons, hc9]
      have hbody_free :
          ∀ c ∈ (c9 :: r9t).takeWhile (fun x => x ≠ rbrace), c ≠ rbrace := by
        intro c hc
        have hmem := List.mem_takeWhile_imp hc
        simpa using hmem
      subst hbr
      refine ⟨"impl".data ++ w1 ++ (modName ++ "::Config".data) ++ w2 ++ "for".data ++
        w3 ++ "Runtime".data ++ w4,
        (c9 :: r9t).takeWhile (fun x => x ≠ rbrace), rest, ?_, ?_,
        hbody_ne, hbody_free⟩
      · rw [e1, e2, e3, e4, e5, e6, e7, e8, e9]
        conv_lhs => rw [hr9]
        simp [List.append_assoc]
      · have hlt : t = ("impl".data ++ w1 ++ (modName ++ "::Config".data) ++ w2 ++
            "for".data ++ w3 ++ "Runtime".data ++ w4) ++ [lbrace] ++
            ((c9 :: r9t).takeWhile (fun x => x ≠ rbrace) ++ [rbrace] ++ rest) := by
          rw [e1, e2, e3, e4, e5, e6, e7, e8, e9]
          conv_lhs => rw [hr9]
          simp [List.append_assoc]
        have hlength := congrArg List.length hlt
        simp only [List.length_append, List.length_cons, List.length_nil] at hlength ⊢
        omega
    next => simp at h
  next => simp at h

/-- Positions delivered by the anchored scan come from `tryTraitAt` on
the corresponding suffix. -/
theorem findTraitFrom_some (modName : List Char) : ∀ (s : List Char) (i : Nat) (st : Bool)
    (a b : Nat), findTraitFrom modName s i st = some (a, b) →
    ∃ j len, a = i + j ∧ b = a + len ∧ tryTraitAt modName (s.drop j) = some len := by
  intro s
  induction s with
  | nil => intro i st a b h; exact absurd h (by simp [findTraitFrom])
  | cons c t ih =>
    intro i st a b h
    unfold findTraitFrom at h
    split at h
    next hst =>
      cases htry : tryTraitAt modName (c :: t) with
      | some len =>
        rw [htry] at h
        injection h with h1
        have hab : i = a ∧ i + len = b := by
          constructor
          · exact congrArg Prod.fst h1
          · exact congrArg Prod.snd h1
        obtain ⟨ha, hb⟩ := hab
        exact ⟨0, len, by omega, by omega, by simpa using htry⟩
      | none =>
        rw [htry] at h
        obtain ⟨j, len, ha, hb, htr⟩ := ih (i + 1) (c = '\n') a b h
        exact ⟨j + 1, len, by omega, hb, by simpa using htr⟩
    next hst =>
      obtain ⟨j, len, ha, hb, htr⟩ := ih (i + 1) (c = '\n') a b h
      exact ⟨j + 1, len, by omega, hb, by simpa using htr⟩

set_option maxRecDepth 400000 in
/-- C5 counterexample: on `c5src` the impl block's body contains nested
braces; the regex match (and hence the replaced span) ends at position
45 — the first closing brace — while the matching-depth block of the
claim ends at position 47, and the injected output keeps the dangling
remainder of the original block (`…*/ \n\x7d` followed by the leftover
`\x7d` line). -/
theorem trait_block_counterexample :
    findTrait "foo".data c5src = some (0, 45) ∧
    specTraitBlockEnd c5src 29 = some 47 ∧
    (45 : Nat) ≠ 47 ∧
    (addPalletToRuntime "foo".data c5src).map
      (fun r => isSubstr ("*/ \n".data ++ [rbrace, '\n', rbrace]) r.text) = .ok true := by
  refine ⟨by rfl, by rfl, by decide, by rfl⟩

/-- C5 amended: when step 1 finds an existing impl block, the match
starts at the recognizable header and extends only to the FIRST closing
brace after the opening brace (the body is nonempty and brace-free, so
blocks with nested braces are replaced only up to their first `\x7d`);
the whole matched span is replaced by the generated skeleton and the
recorded line number is one plus the line count of the preceding text. -/
theorem trait_block_amended :
    (∀ (modName s : List Char) (a b : Nat), findTrait modName s = some (a, b) →
      ∃ pre body rest, s.drop a = pre ++ [lbrace] ++ body ++ [rbrace] ++ rest ∧
        b = a + (pre.length + body.length + 2) ∧ body ≠ [] ∧
        ∀ c ∈ body, c ≠ rbrace) ∧
    (∀ (crateSpec s : List Char) (a b : Nat),
      findTrait (toSnakeCase crateSpec) s = some (a, b) →
      addPalletToRuntime crateSpec s =
        registerPalletConfig (toSnakeCase crateSpec)
          (some (linesCount (s.take a) + 1))
          (s.take a ++ palletTraitImpl (toSnakeCase crateSpec) ++ s.drop b)) := by
  constructor
  · intro modName s a b h
    obtain ⟨j, len, ha, hb, htr⟩ := findTraitFrom_some modName s 0 true a b h
    have haj : j = a := by omega
    subst haj
    obtain ⟨pre, body, rest, ht, hlen, hne, hfree⟩ :=
      tryTraitAt_decomp modName (s.drop j) len htr
    exact ⟨pre, body, rest, ht, by omega, hne, hfree⟩
  · intro crateSpec s a b h
    simp only [addPalletToRuntime, injectStep1, h]

set_option maxRecDepth 400000 in
/-- Witness for C5's amended theorem on `c5src`. -/
theorem trait_block_amended_witness :
    addPalletToRuntime "foo".data c5src =
      registerPalletConfig (toSnakeCase "foo".data)
        (some (linesCount (c5src.take 0) + 1))
        (c5src.take 0 ++ palletTraitImpl (toSnakeCase "foo".data) ++ c5src.drop 45) :=
  trait_block_amended.2 "foo".data c5src 0 45 (by rfl)

end SubstrateManager
